import Mathlib

/-
Verification of the rotor-machine simulation library (TypeScript sources under
src/). JavaScript numbers are modelled as `Int` (every value the library feeds
through its arithmetic is an integer); JS strings are modelled as `List Char`
for cipher input and as `String` for labels; JS `throw` is modelled with
`Except String`; `undefined`-or-value returns are modelled with `Option`.
The JS remainder operator `%` truncates toward zero, which is `Int.tmod`.
-/

namespace Enigma

/-! ## common.ts -/

/-- Message thrown by `circular` when `max` fails its guard. -/
def circularErrMsg : String :=
  "TypeError: Circular requires a positive, non-0, finite number for parameter 2 max."

/-- Value computed by `circular(val, max)` once the guard on `max` has passed:
`let res = val % max; if (res < 0) res = max + res; return res`.
JS `%` on integers truncates toward zero, i.e. `Int.tmod`. -/
def circularVal (val max : Int) : Int :=
  let res := val.tmod max
  if res < 0 then max + res else res

/-- `circular(val, max)` from src/common.ts. The guard
`Number.isFinite(max) === false || max <= 0` reduces to `max <= 0` on the
integer model (every `Int` is finite). -/
def circular (val max : Int) : Except String Int :=
  if max ≤ 0 then .error circularErrMsg else .ok (circularVal val max)

/-- Inner loop of `findDuplicates`: `other` ranges over the index list,
skipping values already recorded in `dups`, pushing `[other, el]` on a match. -/
def findDupInner (arr : List Int) (el : Int) (dups : List (Nat × Int)) :
    List Nat → List (Nat × Int)
  | [] => dups
  | o :: rest =>
    if (dups.find? (fun d => d.2 == arr.getD o 0)).isSome then
      findDupInner arr el dups rest
    else if arr.getD o 0 == el then
      findDupInner arr el (dups ++ [(o, el)]) rest
    else
      findDupInner arr el dups rest

/-- Outer loop of `findDuplicates`: `ind` ranges over the index list; the inner
loop scans the indices strictly after `ind`. -/
def findDupOuter (arr : List Int) (dups : List (Nat × Int)) :
    List Nat → List (Nat × Int)
  | [] => dups
  | i :: rest =>
    findDupOuter arr
      (findDupInner arr (arr.getD i 0) dups (List.range' (i + 1) (arr.length - (i + 1))))
      rest

/-- `findDuplicates(arr)` from src/common.ts, specialised to `Int` entries (the
library only ever calls it on wiring arrays of numbers). Returns `[index, value]`
tuples; the earliest index of a duplicate is never returned. -/
def findDuplicates (arr : List Int) : List (Nat × Int) :=
  findDupOuter arr [] (List.range arr.length)

/-- Loop of `findTupleDuplicates`, threading the `seen` set (modelled as a list)
through the tuples. Each tuple contributes its two members in order. -/
def findTupleDupGo (ind : Nat) (seen : List Int) :
    List (Int × Int) → List (Nat × Int × Nat)
  | [] => []
  | p :: rest =>
    if seen.contains p.1 then
      (ind, p.1, 0) ::
        (if seen.contains p.2 then
          (ind, p.2, 1) :: findTupleDupGo (ind + 1) seen rest
        else
          findTupleDupGo (ind + 1) (p.2 :: seen) rest)
    else
      if (p.1 :: seen).contains p.2 then
        (ind, p.2, 1) :: findTupleDupGo (ind + 1) (p.1 :: seen) rest
      else
        findTupleDupGo (ind + 1) (p.2 :: p.1 :: seen) rest

/-- `findTupleDuplicates(arr)` from src/common.ts, specialised to the
`PlugWire` tuples it is used on. Returns `[index, value, sub-index]` for every
member already seen anywhere earlier in the tuple scope. -/
def findTupleDuplicates (arr : List (Int × Int)) : List (Nat × Int × Nat) :=
  findTupleDupGo 0 [] arr

/-- Loop of `findOutOfRanges`, carrying the current index. -/
def findOutOfRangesGo (max : Int) (ind : Nat) : List Int → List (Nat × Int)
  | [] => []
  | v :: rest =>
    (if v < 0 ∨ max ≤ v then [(ind, v)] else []) ++ findOutOfRangesGo max (ind + 1) rest

/-- Modelled from the spec: `findOutOfRanges` is imported from src/common.ts by
Reflector.ts and Stator.ts and exercised by the tests, but its implementation is
missing from the sources provided. Spec section 4.1 describes the check: defects
are the entries whose value falls outside 0..N-1, each referencing the offending
array position and value (the test expects `findOutOfRanges([0,1,2,3], 3)` to be
`[[3, 3]]`). -/
def findOutOfRanges (arr : List Int) (max : Int) : List (Nat × Int) :=
  findOutOfRangesGo max 0 arr

/-! ## alphabet.ts -/

/-- `getCharacterIndex(alpha, char, unknownAs)` from src/alphabet.ts, with the
input already a single character (the source normalises its string argument with
`toUpperCase().trim().substring(0, 1)`; the model applies `toUpper` and is used
only on single non-whitespace characters, where trim and substring are the
identity). The fallback `unknownAs` is looked up raw, exactly as the source. -/
def getCharacterIndex (alpha : List Char) (char : Char) (unknownAs : Char) :
    Except String Int :=
  let ltr := char.toUpper
  match alpha.findIdx? (fun c => c == ltr) with
  | some ind => .ok (ind : Int)
  | none =>
    match alpha.findIdx? (fun c => c == unknownAs) with
    | some sub => .ok (sub : Int)
    | none => .error "getCharacterIndex failed to find the character and the substitute in the alphabet"

/-- `getCharacterFromIndex(alpha, index, unknownAs)` from src/alphabet.ts:
out-of-range indices fall back to `unknownAs`. -/
def getCharacterFromIndex (alpha : List Char) (index : Int) (unknownAs : Char) : Char :=
  if index < 0 ∨ (alpha.length : Int) ≤ index then unknownAs
  else alpha.getD index.toNat unknownAs

/-! ## Bridging lemmas for `circularVal` -/

theorem tmod_gt_neg (a : Int) {b : Int} (hb : 0 < b) : -b < a.tmod b := by
  match a with
  | .ofNat n =>
    have h0 : (0 : Int) ≤ Int.tmod (.ofNat n) b := Int.tmod_nonneg b (Int.ofNat_nonneg n)
    omega
  | .negSucc n =>
    match b, hb with
    | .ofNat (k + 1), _ =>
      show -(Int.ofNat (k + 1)) < -(Int.ofNat ((n + 1) % (k + 1)))
      have h1 : (n + 1) % (k + 1) < k + 1 := Nat.mod_lt _ (Nat.succ_pos k)
      have h2 : Int.ofNat ((n + 1) % (k + 1)) < Int.ofNat (k + 1) := Int.ofNat_lt.mpr h1
      omega

theorem emod_unique {r v m : Int} (h1 : 0 ≤ r) (h2 : r < m) (h3 : m ∣ (v - r)) :
    v % m = r := by
  have hvr : v % m = r % m := by
    rw [Int.emod_eq_emod_iff_emod_sub_eq_zero]
    exact Int.emod_eq_zero_of_dvd h3
  rw [hvr, Int.emod_eq_of_lt h1 h2]

theorem circularVal_eq_emod (v : Int) {m : Int} (hm : 0 < m) :
    circularVal v m = v % m := by
  unfold circularVal
  have hdvd : m ∣ (v - v.tmod m) := by
    refine ⟨v.tdiv m, ?_⟩
    have := Int.tmod_def v m
    omega
  by_cases hneg : v.tmod m < 0
  · simp only [hneg, if_pos]
    refine (emod_unique ?_ ?_ ?_).symm
    · have := tmod_gt_neg v hm
      omega
    · omega
    · have : v - (m + v.tmod m) = (v - v.tmod m) + m * (-1) := by ring
      rw [this]
      exact dvd_add hdvd ⟨-1, rfl⟩
  · simp only [hneg, if_neg, ite_false]
    refine (emod_unique ?_ ?_ hdvd).symm
    · omega
    · exact Int.tmod_lt_of_pos v hm

theorem circularVal_nonneg (v : Int) {m : Int} (hm : 0 < m) : 0 ≤ circularVal v m := by
  rw [circularVal_eq_emod v hm]
  exact Int.emod_nonneg v (by omega)

theorem circularVal_lt (v : Int) {m : Int} (hm : 0 < m) : circularVal v m < m := by
  rw [circularVal_eq_emod v hm]
  exact Int.emod_lt_of_pos v hm

theorem circularVal_period (v k : Int) {m : Int} (hm : 0 < m) :
    circularVal (v + k * m) m = circularVal v m := by
  rw [circularVal_eq_emod _ hm, circularVal_eq_emod v hm, Int.add_mul_emod_self]

theorem circularVal_of_lt {v m : Int} (h0 : 0 ≤ v) (h1 : v < m) : circularVal v m = v := by
  rw [circularVal_eq_emod v (by omega), Int.emod_eq_of_lt h0 h1]

/-! ## Validation defects

Each constructor mirrors one `new Error(...)` site of the sources; the message
payload is represented structurally (offending position and value). -/

inductive Defect where
  | machineEntryCharCount : Defect
  | statorOutOfRange (ind : Nat) (val : Int) : Defect
  | statorDuplicate (ind : Nat) (val : Int) : Defect
  | machineWheelCharCount (wheelInd : Nat) : Defect
  | machineWheel (wheelInd : Nat) (inner : Defect) : Defect
  | wheelOutOfRange (ind : Nat) (val : Int) : Defect
  | wheelDuplicate (ind : Nat) (val : Int) : Defect
  | machineReflectorCharCount : Defect
  | reflectorOutOfRange (ind : Nat) (val : Int) : Defect
  | reflectorDuplicate (ind : Nat) (val : Int) : Defect
  | machineNoReflector : Defect
  | machinePlugboardCharCount : Defect
  | plugboardOutOfRange (ind : Nat) : Defect
  | plugboardSelfPair (ind : Nat) : Defect
  | plugboardDuplicate (ind : Nat) (val : Int) : Defect
  deriving Repr, DecidableEq

/-! ## Stator.ts (entry wheel)

The Machine of components/Machine.ts imports the Stator whose `validate`
returns a plain array (the version alongside `fromModel`). -/

structure Stator where
  label : String
  numCharacters : Int
  mapping : List Int
  deriving Repr, DecidableEq

/-- Constructor of `Stator`: throws on an empty label, a non-positive
character count, or a mapping array whose length disagrees with `numChars`. -/
def Stator.make (label : String) (numChars : Int) (map : List Int) :
    Except String Stator :=
  if label.length < 1 then
    .error "TypeError: Stator constructed with parameter 1 label being empty."
  else if numChars ≤ 0 then
    .error "TypeError: Stator constructed with parameter 2 numChars being 0 or under."
  else if (map.length : Int) ≠ numChars then
    .error "TypeError: Stator constructed with parameter 3 map not of the length specified by numChars."
  else
    .ok { label := label, numCharacters := numChars, mapping := map }

/-- `Stator.encode(index) = mapping[circular(index, numCharacters)]`. The
`circular` guard cannot fire on a constructed Stator (`numCharacters > 0`). -/
def Stator.encode (s : Stator) (index : Int) : Int :=
  s.mapping.getD (circularVal index s.numCharacters).toNat 0

/-- `Stator.validate()`: out-of-range defects then duplicate defects, as a
plain (possibly empty) list. -/
def Stator.validate (s : Stator) : List Defect :=
  (findOutOfRanges s.mapping s.numCharacters).map (fun p => Defect.statorOutOfRange p.1 p.2) ++
    (findDuplicates s.mapping).map (fun p => Defect.statorDuplicate p.1 p.2)

/-! ## Wheel.ts -/

/-- `Wheel.RingDisplays.Latin`, the default display ring. -/
def latinRing : List String :=
  ["A", "B", "C", "D", "E", "F", "G", "H", "I", "J", "K", "L", "M",
   "N", "O", "P", "Q", "R", "S", "T", "U", "V", "W", "X", "Y", "Z"]

structure Wheel where
  label : String
  numCharacters : Int
  ringDisplay : List String
  wiring : List Int
  notches : List Int
  ringSetting : Int
  startingPosition : Int
  position : Int
  init : Bool
  deriving Repr, DecidableEq

/-- Constructor of `Wheel`. Faithful to the source: there is no check on
`label`; `display` and `wiring` are only length-checked when supplied
(JS `display && display.length !== numChars`), with `display` defaulting to the
Latin ring and `wiring` defaulting to the empty array. -/
def Wheel.make (label : String) (numChars : Int) (display : Option (List String))
    (wiring : Option (List Int)) (notches : Option (List Int)) :
    Except String Wheel :=
  if numChars ≤ 0 then
    .error "TypeError: Wheel constructed with parameter 2 numChars being 0 or under."
  else if display.any (fun d => (d.length : Int) != numChars) then
    .error "TypeError: Wheel constructed with an invalid display parameter."
  else if wiring.any (fun w => (w.length : Int) != numChars) then
    .error "TypeError: Wheel constructed with an invalid wiring parameter."
  else
    .ok { label := label, numCharacters := numChars,
          ringDisplay := display.getD latinRing,
          wiring := wiring.getD [],
          notches := notches.getD [],
          ringSetting := 0, startingPosition := 0, position := 0, init := false }

/-- Accessor `Wheel.isSetup`: true if `setup()` has been called. -/
def Wheel.isSetup (w : Wheel) : Bool :=
  w.init

/-- Accessor `Wheel.atNotch`: true iff `position` is a member of `notches`. -/
def Wheel.atNotch (w : Wheel) : Bool :=
  w.notches.contains w.position

/-- `Wheel.setup(ringSetting, startingPosition)`: wraps both arguments into
range and copies the starting position into `position`. Faithful to the source,
which never touches the private `init` flag here. -/
def Wheel.setup (w : Wheel) (ringSetting startingPosition : Int) : Wheel :=
  let rs := circularVal ringSetting w.numCharacters
  let sp := circularVal startingPosition w.numCharacters
  { w with ringSetting := rs, startingPosition := sp, position := sp }

/-- `Wheel.encode(index) = circular(index + position + ringSetting,
numCharacters)`. Faithful to the source, which returns the wrapped sum directly
and never reads `wiring`. -/
def Wheel.encode (w : Wheel) (index : Int) : Int :=
  circularVal (index + w.position + w.ringSetting) w.numCharacters

/-- `Wheel.advance(steps)`: adds `steps` to `position` modulo the wheel size. -/
def Wheel.advance (w : Wheel) (steps : Int) : Wheel :=
  { w with position := circularVal (w.position + steps) w.numCharacters }

/-- Modelled from the spec: the `Wheel` class in src/components/Wheel.ts has no
`validate` method, yet Machine.validate calls `whl.validate()` and the test
suite exercises `Wheel#validate()`; the implementation is missing from the
sources provided. Spec section 4.2: defects from the underlying wiring
permutation (out-of-range, duplicate) only. Mirrors the Stator and Reflector
validators, which list out-of-range defects first and duplicates second. -/
def Wheel.validate (w : Wheel) : List Defect :=
  (findOutOfRanges w.wiring w.numCharacters).map (fun p => Defect.wheelOutOfRange p.1 p.2) ++
    (findDuplicates w.wiring).map (fun p => Defect.wheelDuplicate p.1 p.2)

/-! ## Reflector.ts -/

structure Reflector where
  label : String
  numCharacters : Int
  wiring : List Int
  moving : Bool
  startingPosition : Int
  position : Int
  init : Bool
  deriving Repr, DecidableEq

/-- Constructor of `Reflector`: throws on empty label, non-positive character
count, or a wiring array whose length disagrees with `numChars`. -/
def Reflector.make (label : String) (numChars : Int) (wiring : List Int)
    (moving : Bool) : Except String Reflector :=
  if label.length < 1 then
    .error "TypeError: Reflector constructed with parameter 1 label being empty."
  else if numChars ≤ 0 then
    .error "TypeError: Reflector constructed with parameter 2 numChars being 0 or under."
  else if (wiring.length : Int) ≠ numChars then
    .error "TypeError: Reflector constructed with parameter 3 wiring being invalid."
  else
    .ok { label := label, numCharacters := numChars, wiring := wiring,
          moving := moving, startingPosition := 0, position := 0, init := false }

/-- `Reflector.setup(startPosition)`: fixes starting position and position,
and marks the reflector initialised. -/
def Reflector.setup (r : Reflector) (startPosition : Int) : Reflector :=
  let sp := circularVal startPosition r.numCharacters
  { r with startingPosition := sp, position := sp, init := true }

/-- `Reflector.encode(index) = wiring[circular(index + position,
numCharacters)]`. -/
def Reflector.encode (r : Reflector) (index : Int) : Int :=
  r.wiring.getD (circularVal (index + r.position) r.numCharacters).toNat 0

/-- `Reflector.advance(steps)`: only mutates `position` when `moving` is true;
otherwise a no-op. -/
def Reflector.advance (r : Reflector) (steps : Int) : Reflector :=
  if r.moving = true then
    { r with position := circularVal (r.position + steps) r.numCharacters }
  else r

/-- `Reflector.validate()`: out-of-range defects then duplicate defects. The
source returns the array only when `errs.push(...)` yields a non-zero length,
and otherwise falls through returning `undefined`, modelled as `none`. -/
def Reflector.validate (r : Reflector) : Option (List Defect) :=
  let oorErrs := (findOutOfRanges r.wiring r.numCharacters).map
    (fun p => Defect.reflectorOutOfRange p.1 p.2)
  let dupErrs := (findDuplicates r.wiring).map
    (fun p => Defect.reflectorDuplicate p.1 p.2)
  let errs := oorErrs ++ dupErrs
  if errs.length = 0 then none else some errs

/-! ## Plugboard.ts -/

structure Plugboard where
  label : String
  numCharacters : Int
  plugs : List (Int × Int)
  deriving Repr, DecidableEq

/-- Constructor of `Plugboard`: throws on empty label or non-positive character
count; the plug list is optional and not validated here. -/
def Plugboard.make (label : String) (numChars : Int)
    (plugs : Option (List (Int × Int))) : Except String Plugboard :=
  if label.length < 1 then
    .error "Plugboard constructed with parameter 1 label being empty."
  else if numChars ≤ 0 then
    .error "TypeError: Plugboard constructed with parameter 2 numChars being less than or equal to 0."
  else
    .ok { label := label, numCharacters := numChars, plugs := plugs.getD [] }

/-- `Plugboard.encode(index)`: wraps the input, returns the opposite member of
the first matching plug, or the ORIGINAL (unwrapped) index when no plug
matches. -/
def Plugboard.encode (p : Plugboard) (index : Int) : Int :=
  let inp := circularVal index p.numCharacters
  match p.plugs.find? (fun plg => plg.1 == inp || plg.2 == inp) with
  | some plg => if plg.1 == inp then plg.2 else plg.1
  | none => index

/-- Range and self-pair checks of `Plugboard.validate()`, in source order per
plug. -/
def plugboardRangeSelfGo (numChars : Int) (ind : Nat) :
    List (Int × Int) → List Defect
  | [] => []
  | pr :: rest =>
    (if pr.1 < 0 ∨ numChars ≤ pr.1 ∨ pr.2 < 0 ∨ numChars ≤ pr.2 then
      [Defect.plugboardOutOfRange ind]
    else []) ++
    (if pr.1 = pr.2 then [Defect.plugboardSelfPair ind] else []) ++
    plugboardRangeSelfGo numChars (ind + 1) rest

/-- `Plugboard.validate()`: out-of-range and self-pair defects per plug, then
duplicate-anywhere defects from `findTupleDuplicates`. -/
def Plugboard.validate (p : Plugboard) : List Defect :=
  plugboardRangeSelfGo p.numCharacters 0 p.plugs ++
    (findTupleDuplicates p.plugs).map (fun t => Defect.plugboardDuplicate t.1 t.2.1)

/-- `Plugboard.addPlug(fromIndex, toIndex)`: returns the (possibly updated)
plugboard together with the error, if any. Mirrors the source checks in order:
range of both indices, equality, then a `findIndex` scan for a conflicting
plug; only when all pass is the pair appended. -/
def Plugboard.addPlug (p : Plugboard) (fromIndex toIndex : Int) :
    Plugboard × Option String :=
  if fromIndex < 0 ∨ p.numCharacters ≤ fromIndex then
    (p, some "Plugboard.addPlug received out-of-range fromIndex.")
  else if toIndex < 0 ∨ p.numCharacters ≤ toIndex then
    (p, some "Plugboard.addPlug received out-of-range toIndex.")
  else if fromIndex = toIndex then
    (p, some "Plugboard.addPlug cannot have the same index for both parameters.")
  else
    match p.plugs.findIdx?
        (fun q => q.1 == fromIndex || q.1 == toIndex || q.2 == fromIndex || q.2 == toIndex) with
    | some _ => (p, some "Plugboard.addPlug attempting to add a plug that conflicts with an existing plug.")
    | none => ({ p with plugs := p.plugs ++ [(fromIndex, toIndex)] }, none)

/-! ## Machine (the version holding `processCharacter`, `processMessage` and
`validate`) -/

structure Machine where
  label : String
  alphabet : List Char
  numCharacters : Int
  plugboard : Option Plugboard
  entryWheel : Stator
  wheels : List Wheel
  reflector : Option Reflector
  deriving Repr, DecidableEq

/-- Message thrown by `processCharacter` when no reflector is installed. -/
def noReflectorMsg : String :=
  "Machine does not have a reflector installed."

/-- Message of the TypeError raised by `char[0].toUpperCase()` when
`processCharacter` receives the empty string: `char[0]` is `undefined` and the
method access on it throws before the length guard below it can run. -/
def charAccessTypeErrorMsg : String :=
  "TypeError: cannot read toUpperCase of undefined"

/-- Message of the TypeError raised when `Machine.validate` spreads the result
of `Reflector.validate()` into `errs.push(...)` while that result is
`undefined` (the valid-reflector case): undefined is not iterable. -/
def spreadUndefinedTypeErrorMsg : String :=
  "TypeError: undefined is not iterable"

/-- Stepping-and-forward-encode loop of `processCharacter` over the wheel
array: the wheel at index 0 always advances one step, every other wheel
advances one step when its own `atNotch` is set, and each wheel then encodes
the running index. `ind` is the current array index. -/
def stepAndEncodeWheels : List Wheel → Nat → Int → List Wheel × Int
  | [], _, index => ([], index)
  | w :: rest, ind, index =>
    let w2 := if ind == 0 || w.atNotch then w.advance 1 else w
    let res := stepAndEncodeWheels rest (ind + 1) (w2.encode index)
    (w2 :: res.1, res.2)

/-- Modelled from the spec: `forEachReverse` is imported by Machine from
src/common.ts but its implementation is missing from the sources provided; it
iterates the array from the last index down to the first. The reverse pass of
the pipeline folds `whl.encode` over the wheels in reverse order. -/
def encodeWheelsReverse (wheels : List Wheel) (index : Int) : Int :=
  wheels.reverse.foldl (fun idx w => w.encode idx) index

/-- `Machine.processCharacter(char, unknownAs)`: requires a reflector; reads
and upper-cases the first character of the input; maps it through
plugboard, entry wheel, the stepping wheel pass, the reflector (advanced
first), the reverse wheel pass, the entry wheel and the plugboard again; and
converts the final index back to a character. Returns the mutated machine
(wheel and reflector positions) together with the output character. -/
def Machine.processCharacter (m : Machine) (char : List Char) (unknownAs : Char) :
    Except String (Machine × Char) :=
  match m.reflector with
  | none => .error noReflectorMsg
  | some refl =>
    match char with
    | [] => .error charAccessTypeErrorMsg
    | c0 :: _ =>
      let input := c0.toUpper
      match getCharacterIndex m.alphabet input unknownAs with
      | .error e => .error e
      | .ok index0 =>
        let index1 := match m.plugboard with
          | some pb => pb.encode index0
          | none => index0
        let index2 := m.entryWheel.encode index1
        let stepped := stepAndEncodeWheels m.wheels 0 index2
        let refl2 := refl.advance 1
        let index3 := refl2.encode stepped.2
        let index4 := encodeWheelsReverse stepped.1 index3
        let index5 := m.entryWheel.encode index4
        let index6 := match m.plugboard with
          | some pb => pb.encode index5
          | none => index5
        .ok ({ m with wheels := stepped.1, reflector := some refl2 },
             getCharacterFromIndex m.alphabet index6 unknownAs)

/-- Wheel section of `Machine.validate`: per wheel, a character-count mismatch
defect followed by the wheel's own defects tagged with the wheel index. -/
def machineWheelErrs (numChars : Int) : List Wheel → Nat → List Defect
  | [], _ => []
  | whl :: rest, ind =>
    (if whl.numCharacters ≠ numChars then [Defect.machineWheelCharCount ind] else []) ++
      whl.validate.map (Defect.machineWheel ind) ++
      machineWheelErrs numChars rest (ind + 1)

/-- `Machine.validate()`: entry-wheel count check and defects, wheel checks,
reflector checks (or a missing-reflector defect), plugboard checks. The source
spreads `this.reflector.validate()` into `errs.push(...)`; since
`Reflector.validate` returns `undefined` when the reflector is defect-free,
that spread throws a TypeError, modelled as the `.error` branch. -/
def Machine.validate (m : Machine) : Except String (List Defect) :=
  let entryErrs :=
    (if m.entryWheel.numCharacters ≠ m.numCharacters then [Defect.machineEntryCharCount] else []) ++
      m.entryWheel.validate
  let wheelErrs := machineWheelErrs m.numCharacters m.wheels 0
  match m.reflector with
  | some r =>
    match r.validate with
    | some es =>
      let reflErrs :=
        (if r.numCharacters ≠ m.numCharacters then [Defect.machineReflectorCharCount] else []) ++ es
      let plugErrs := match m.plugboard with
        | some pb =>
          (if pb.numCharacters ≠ m.numCharacters then [Defect.machinePlugboardCharCount] else []) ++
            pb.validate
        | none => []
      .ok (entryErrs ++ wheelErrs ++ reflErrs ++ plugErrs)
    | none => .error spreadUndefinedTypeErrorMsg
  | none =>
    let plugErrs := match m.plugboard with
      | some pb =>
        (if pb.numCharacters ≠ m.numCharacters then [Defect.machinePlugboardCharCount] else []) ++
          pb.validate
      | none => []
    .ok (entryErrs ++ wheelErrs ++ [Defect.machineNoReflector] ++ plugErrs)

/-! ## Concrete components used to evaluate the embedding -/

/-- Entry wheel (identity mapping) on a 2-character alphabet. -/
def statorW : Stator :=
  { label := "ETW", numCharacters := 2, mapping := [0, 1] }

/-- A 2-character wheel in its freshly constructed state. -/
def wheelW : Wheel :=
  { label := "I", numCharacters := 2, ringDisplay := ["A", "B"], wiring := [0, 1],
    notches := [], ringSetting := 0, startingPosition := 0, position := 0, init := false }

/-- A structurally valid 2-character reflector (wiring is the swap [1, 0]). -/
def reflW : Reflector :=
  { label := "UKW", numCharacters := 2, wiring := [1, 0], moving := false,
    startingPosition := 0, position := 0, init := false }

/-- A fully assembled 2-character machine with one wheel and a valid
reflector. -/
def machineW : Machine :=
  { label := "M", alphabet := ['A', 'B'], numCharacters := 2, plugboard := none,
    entryWheel := statorW, wheels := [wheelW], reflector := some reflW }

/-- State of `machineW` after `processCharacter` has stepped its wheel once. -/
def machineW2 : Machine :=
  { label := "M", alphabet := ['A', 'B'], numCharacters := 2, plugboard := none,
    entryWheel := statorW,
    wheels := [{ label := "I", numCharacters := 2, ringDisplay := ["A", "B"],
                 wiring := [0, 1], notches := [], ringSetting := 0,
                 startingPosition := 0, position := 1, init := false }],
    reflector := some reflW }

/-- The 5-character test wheel of tests/components/Wheel.test.ts
(`new Wheel('T', 5, ['A','B','C','D','E'], [4, 2, 0, 3, 1])`) in its
freshly constructed state. -/
def wheelT : Wheel :=
  { label := "T", numCharacters := 5, ringDisplay := ["A", "B", "C", "D", "E"],
    wiring := [4, 2, 0, 3, 1], notches := [], ringSetting := 0,
    startingPosition := 0, position := 0, init := false }

/-- The N=5 plugboard of spec scenario 3, with plugs [(0,2),(1,3)]. -/
def plugboardS : Plugboard :=
  { label := "PB", numCharacters := 5, plugs := [(0, 2), (1, 3)] }

/-- An N=5 plugboard with the single plug (0,2). -/
def plugboardC : Plugboard :=
  { label := "PB", numCharacters := 5, plugs := [(0, 2)] }

/-! ## Claims -/

/-- Claim C1 (code bug in the source). The claim states that
`Wheel.encode(i) = wiring[(i + position + ringSetting) mod N]`. The code
returns the wrapped sum `(i + position + ringSetting) mod N` itself and never
performs the wiring lookup: on the repository's own test wheel
(wiring [4,2,0,3,1], position 0, ring 0), `encode(1)` evaluates to 1 while
`wiring[(1 + 0 + 0) mod 5]` is 2 (the value tests/components/Wheel.test.ts
expects). -/
theorem c1_wheel_encode_ignores_wiring :
    wheelT.encode 1 = 1 ∧
    wheelT.wiring.getD
      (circularVal (1 + wheelT.position + wheelT.ringSetting) wheelT.numCharacters).toNat 0 = 2 := by
  decide

/-- Claim C3 (code bug in the source). `Machine.validate` on a machine whose
installed reflector is defect-free does not return the concatenated defect
list: `Reflector.validate()` returns `undefined` in that case and
`errs.push(...this.reflector.validate())` throws a TypeError. -/
theorem c3_validate_throws_on_valid_reflector :
    reflW.validate = none ∧
    machineW.validate = .error spreadUndefinedTypeErrorMsg :=
  ⟨rfl, rfl⟩

/-- Claim C5 (code bug in the source). The Wheel constructor, unlike the
Reflector, Plugboard and Stator constructors, performs no label check, and its
omitted `wiring` parameter defaults to an empty array regardless of the
declared character count: `new Wheel('', 1)` succeeds, yielding a wheel with an
empty label and a wiring array of length 0 on a declared count of 1, while the
other three constructors all throw on an empty label. -/
theorem c5_wheel_constructor_missing_guards :
    Wheel.make "" 1 none none none =
      .ok { label := "", numCharacters := 1, ringDisplay := latinRing,
            wiring := [], notches := [], ringSetting := 0,
            startingPosition := 0, position := 0, init := false } ∧
    Reflector.make "" 2 [1, 0] false =
      .error "TypeError: Reflector constructed with parameter 1 label being empty." ∧
    Plugboard.make "" 2 none =
      .error "Plugboard constructed with parameter 1 label being empty." ∧
    Stator.make "" 2 [0, 1] =
      .error "TypeError: Stator constructed with parameter 1 label being empty." :=
  ⟨rfl, rfl, rfl, rfl⟩

/-- Claim C7. `circular(v, N)` yields a value in [0, N) for every integer v
and N > 0, is N-periodic in its first argument, and throws for N ≤ 0 (the
non-finite part of the guard is vacuous on the integer model). -/
theorem c7_circular (v m k : Int) :
    (0 < m → circular v m = .ok (circularVal v m) ∧
      0 ≤ circularVal v m ∧ circularVal v m < m) ∧
    circular (v + k * m) m = circular v m ∧
    (m ≤ 0 → circular v m = .error circularErrMsg) := by
  refine ⟨fun hm => ⟨?_, circularVal_nonneg v hm, circularVal_lt v hm⟩, ?_, fun hm => ?_⟩
  · unfold circular
    rw [if_neg (by omega)]
  · by_cases hm : 0 < m
    · unfold circular
      rw [if_neg (by omega), if_neg (by omega), circularVal_period v k hm]
    · unfold circular
      rw [if_pos (by omega), if_pos (by omega)]
  · unfold circular
    rw [if_pos hm]

/-- Witness for C7 at v = 7, N = 5, k = -3, and the guard case at N = -4. -/
theorem c7_circular_witness :
    (circular 7 5 = .ok (circularVal 7 5) ∧ 0 ≤ circularVal 7 5 ∧ circularVal 7 5 < 5) ∧
    circular (7 + (-3) * 5) 5 = circular 7 5 ∧
    circular 7 (-4) = .error circularErrMsg :=
  ⟨(c7_circular 7 5 (-3)).1 (by decide),
   (c7_circular 7 5 (-3)).2.1,
   (c7_circular 7 (-4) 0).2.2 (by decide)⟩

/-- Claim C9 (code bug in the source). `Wheel.setup(r, p)` stores
`r mod N` and `p mod N` and copies the starting position into `position`, but
it never sets the private `#init` flag, so `isSetup` stays exactly what it was
before the call: on a freshly constructed wheel, `setup(1, 2)` leaves `isSetup`
false, although the accessor is documented to be true once `setup()` has been
called and tests/components/Wheel.test.ts asserts exactly that. -/
theorem c9_setup_fields_but_not_marked_installed :
    (∀ (w : Wheel) (r p : Int),
      (w.setup r p).ringSetting = circularVal r w.numCharacters ∧
      (w.setup r p).startingPosition = circularVal p w.numCharacters ∧
      (w.setup r p).position = (w.setup r p).startingPosition ∧
      (w.setup r p).isSetup = w.isSetup) ∧
    (wheelT.setup 1 2).ringSetting = 1 ∧
    (wheelT.setup 1 2).startingPosition = 2 ∧
    (wheelT.setup 1 2).position = 2 ∧
    (wheelT.setup 1 2).isSetup = false :=
  ⟨fun _ _ _ => ⟨rfl, rfl, rfl, rfl⟩, by decide, by decide, by decide, by decide⟩

/-- Claim C10. With a reflector installed, `processCharacter` on the empty
string throws: `char[0]` is `undefined` and `.toUpperCase()` on it raises a
TypeError before the empty-input guard below it can run, so neither the
fallback symbol nor the empty string is ever returned. -/
theorem c10_processCharacter_empty_throws (m : Machine) (r : Reflector) (u : Char)
    (h : m.reflector = some r) :
    m.processCharacter [] u = .error charAccessTypeErrorMsg := by
  unfold Machine.processCharacter
  rw [h]

theorem stepAndEncodeWheels_getElem (ws : List Wheel) :
    ∀ (ind : Nat) (idx : Int) (i : Nat),
    (stepAndEncodeWheels ws ind idx).1[i]? =
      (ws[i]?).map (fun w => if (ind + i) == 0 || w.atNotch then w.advance 1 else w) := by
  induction ws with
  | nil =>
    intro ind idx i
    simp [stepAndEncodeWheels]
  | cons w rest ih =>
    intro ind idx i
    cases i with
    | zero =>
      simp [stepAndEncodeWheels]
    | succ n =>
      have h1 : ind + 1 + n = ind + (n + 1) := by omega
      simp only [stepAndEncodeWheels, List.getElem?_cons_succ]
      rw [ih (ind + 1) _ n, h1]

/-- Claim C2. In every successful `processCharacter` call, the wheel at array
index 0 is advanced by exactly one step, every other wheel is advanced by
exactly one step iff its own pre-call `atNotch` state is set (its position as
it was before any wheel moved this call is a member of its notches), and no
wheel is advanced more than once: the post-call wheel at index i is exactly
`advance(1)` of the pre-call wheel when `i = 0` or that wheel was at a notch,
and the unchanged pre-call wheel otherwise. -/
theorem c2_stepping (m m2 : Machine) (c : List Char) (u out : Char)
    (h : m.processCharacter c u = .ok (m2, out)) (i : Nat) :
    m2.wheels[i]? =
      (m.wheels[i]?).map (fun w => if i == 0 || w.atNotch then w.advance 1 else w) := by
  unfold Machine.processCharacter at h
  cases hr : m.reflector with
  | none =>
    rw [hr] at h
    exact absurd h (by simp)
  | some r =>
    rw [hr] at h
    cases c with
    | nil =>
      exact absurd h (by simp)
    | cons c0 rest =>
      dsimp only [] at h
      cases hg : getCharacterIndex m.alphabet c0.toUpper u with
      | error e =>
        rw [hg] at h
        exact absurd h (by simp)
      | ok idx0 =>
        rw [hg] at h
        dsimp only [] at h
        simp only [Except.ok.injEq, Prod.mk.injEq] at h
        obtain ⟨hm2, -⟩ := h
        rw [← hm2]
        have hstep := stepAndEncodeWheels_getElem m.wheels 0
          (m.entryWheel.encode
            (match m.plugboard with
             | some pb => pb.encode idx0
             | none => idx0)) i
        simp only [Nat.zero_add] at hstep
        exact hstep

/-- Witness for C2: on the concrete assembled machine, processing the single
character A succeeds and steps the lone wheel (index 0) by one. -/
theorem c2_stepping_witness :
    machineW.processCharacter ['A'] 'X' = .ok (machineW2, 'B') ∧
    machineW2.wheels[0]? =
      (machineW.wheels[0]?).map (fun w => if 0 == 0 || w.atNotch then w.advance 1 else w) :=
  ⟨rfl, c2_stepping machineW machineW2 ['A'] 'X' 'B' rfl 0⟩

/-- Claim C6. `addPlug(a, b)` returns an error and leaves the plug list
unchanged exactly when a or b is out of range, a equals b, or either symbol
already appears in an existing pair; otherwise it appends (a, b) and returns
no error. The concrete conjuncts are spec scenario 3: on the N=5 board with
plugs [(0,2),(1,3)], encode(2) is 0, encode(4) is 4, and addPlug(0,4) fails
(symbol 0 is already paired) leaving the plugs unchanged. -/
theorem c6_addPlug :
    (∀ (pb : Plugboard) (a b : Int),
      ((pb.addPlug a b).2.isSome = true ↔
        (a < 0 ∨ pb.numCharacters ≤ a ∨ b < 0 ∨ pb.numCharacters ≤ b ∨ a = b ∨
          pb.plugs.any (fun q => q.1 == a || q.1 == b || q.2 == a || q.2 == b) = true)) ∧
      (pb.addPlug a b).1.plugs =
        (if (pb.addPlug a b).2.isSome = true then pb.plugs else pb.plugs ++ [(a, b)])) ∧
    plugboardS.encode 2 = 0 ∧
    plugboardS.encode 4 = 4 ∧
    (plugboardS.addPlug 0 4).2.isSome = true ∧
    (plugboardS.addPlug 0 4).1.plugs = plugboardS.plugs := by
  refine ⟨fun pb a b => ?_, by decide, by decide, by decide, by decide⟩
  unfold Plugboard.addPlug
  by_cases h1 : a < 0 ∨ pb.numCharacters ≤ a
  · rw [if_pos h1]
    refine ⟨by simp; tauto, by simp⟩
  · rw [if_neg h1]
    by_cases h2 : b < 0 ∨ pb.numCharacters ≤ b
    · rw [if_pos h2]
      refine ⟨by simp; tauto, by simp⟩
    · rw [if_neg h2]
      by_cases h3 : a = b
      · rw [if_pos h3]
        refine ⟨by simp; tauto, by simp⟩
      · rw [if_neg h3]
        have hiso : (pb.plugs.findIdx?
              (fun q => q.1 == a || q.1 == b || q.2 == a || q.2 == b)).isSome =
            pb.plugs.any (fun q => q.1 == a || q.1 == b || q.2 == a || q.2 == b) :=
          List.findIdx?_isSome
        cases hf : pb.plugs.findIdx?
            (fun q => q.1 == a || q.1 == b || q.2 == a || q.2 == b) with
        | some ix =>
          rw [hf] at hiso
          have hany : pb.plugs.any
              (fun q => q.1 == a || q.1 == b || q.2 == a || q.2 == b) = true := by
            rw [← hiso]
            rfl
          simp only [hf]
          constructor
          · simp only [Option.isSome_some, true_iff]
            exact Or.inr (Or.inr (Or.inr (Or.inr (Or.inr hany))))
          · simp
        | none =>
          rw [hf] at hiso
          have hany : pb.plugs.any
              (fun q => q.1 == a || q.1 == b || q.2 == a || q.2 == b) = false := by
            rw [← hiso]
            rfl
          simp only [hf]
          constructor
          · simp only [Option.isSome_none, Bool.false_eq_true, false_iff]
            rintro (h | h | h | h | h | h)
            · exact h1 (Or.inl h)
            · exact h1 (Or.inr h)
            · exact h2 (Or.inl h)
            · exact h2 (Or.inr h)
            · exact h3 h
            · simp [hany] at h
          · simp

theorem plug_find_unique (y a b : Int) :
    ∀ (plugs : List (Int × Int)),
    ((plugs.map (fun q => [q.1, q.2])).flatten).Nodup →
    (a, b) ∈ plugs → (y = a ∨ y = b) →
    plugs.find? (fun q => q.1 == y || q.2 == y) = some (a, b) := by
  intro plugs
  induction plugs with
  | nil =>
    intro _ hmem _
    cases hmem
  | cons h t ih =>
    intro hnd hmem hy
    rw [List.map_cons, List.flatten_cons, List.nodup_append] at hnd
    obtain ⟨hnd1, hnd2, hdisj⟩ := hnd
    rcases List.mem_cons.mp hmem with heq | hmem2
    · have hpred : ((a, b).1 == y || (a, b).2 == y) = true := by
        rcases hy with hy | hy <;> simp [hy]
      rw [← heq]
      exact List.find?_cons_of_pos t hpred
    · have hy_mem_t : y ∈ (t.map (fun q => [q.1, q.2])).flatten := by
        rw [List.mem_flatten]
        refine ⟨[a, b], List.mem_map.mpr ⟨(a, b), hmem2, rfl⟩, ?_⟩
        rcases hy with hy | hy <;> simp [hy]
      have hpred : (h.1 == y || h.2 == y) = false := by
        by_contra hc
        rw [Bool.not_eq_false, Bool.or_eq_true, beq_iff_eq, beq_iff_eq] at hc
        have hy_mem_h : y ∈ [h.1, h.2] := by
          rcases hc with hc | hc <;> simp [hc]
        exact hdisj hy_mem_h hy_mem_t
      rw [List.find?_cons_of_neg t (by simp [hpred])]
      exact ih hnd2 hmem2 hy

/-- Counterexample to claim C4 as stated: `plugboardC` (5 characters,
single plug (0, 2)) satisfies every validity condition of the claim, yet for
the integer index 7 a double encode does not return 7: `encode(7)` wraps 7 to
2, matches the plug and yields 0, and `encode(0)` yields 2. Only in-range
indices are fixed by a double encode, because the no-match branch returns the
original index while the match branch returns the partner of the wrapped
index. -/
theorem c4_plugboard_involution_counterexample :
    (∀ q ∈ plugboardC.plugs, 0 ≤ q.1 ∧ q.1 < plugboardC.numCharacters ∧
      0 ≤ q.2 ∧ q.2 < plugboardC.numCharacters) ∧
    ((plugboardC.plugs.map (fun q => [q.1, q.2])).flatten).Nodup ∧
    plugboardC.encode (plugboardC.encode 7) = 2 ∧
    plugboardC.encode (plugboardC.encode 7) ≠ 7 := by
  refine ⟨by decide, by decide, by decide, by decide⟩

/-- Claim C4 as amended: for a valid plug set (members in range, no self-pair,
no symbol in two pairs) and every IN-RANGE index x (0 ≤ x < N), the plugboard
encode is an involution: `encode(encode(x)) = x`. -/
theorem c4_plugboard_involution_in_range (pb : Plugboard) (x : Int)
    (hrange : ∀ q ∈ pb.plugs, 0 ≤ q.1 ∧ q.1 < pb.numCharacters ∧
      0 ≤ q.2 ∧ q.2 < pb.numCharacters)
    (hnd : ((pb.plugs.map (fun q => [q.1, q.2])).flatten).Nodup)
    (hx0 : 0 ≤ x) (hxN : x < pb.numCharacters) :
    pb.encode (pb.encode x) = x := by
  have cx : circularVal x pb.numCharacters = x := circularVal_of_lt hx0 hxN
  cases hfx : pb.plugs.find? (fun q => q.1 == x || q.2 == x) with
  | none =>
    have e1 : pb.encode x = x := by
      unfold Plugboard.encode
      dsimp only []
      rw [cx, hfx]
    rw [e1, e1]
  | some q =>
    obtain ⟨qa, qb⟩ := q
    have hqmem : (qa, qb) ∈ pb.plugs := List.mem_of_find?_eq_some hfx
    have hqpred := List.find?_some hfx
    have hqr := hrange _ hqmem
    have hpairnd : qa ≠ qb := by
      have hsub := (List.nodup_flatten.mp hnd).1 [qa, qb]
        (List.mem_map.mpr ⟨(qa, qb), hqmem, rfl⟩)
      simpa using hsub
    by_cases hqa : qa = x
    · have e1 : pb.encode x = qb := by
        unfold Plugboard.encode
        dsimp only []
        rw [cx, hfx]
        simp [hqa]
      have hfb : pb.plugs.find? (fun r => r.1 == qb || r.2 == qb) = some (qa, qb) :=
        plug_find_unique qb qa qb pb.plugs hnd hqmem (Or.inr rfl)
      have cqb : circularVal qb pb.numCharacters = qb :=
        circularVal_of_lt hqr.2.2.1 hqr.2.2.2
      have e2 : pb.encode qb = qa := by
        unfold Plugboard.encode
        dsimp only []
        rw [cqb, hfb]
        simp [hpairnd]
      rw [e1, e2]
      exact hqa
    · have hqb : qb = x := by
        rw [Bool.or_eq_true, beq_iff_eq, beq_iff_eq] at hqpred
        tauto
      have e1 : pb.encode x = qa := by
        unfold Plugboard.encode
        dsimp only []
        rw [cx, hfx]
        simp [hqa]
      have hfa : pb.plugs.find? (fun r => r.1 == qa || r.2 == qa) = some (qa, qb) :=
        plug_find_unique qa qa qb pb.plugs hnd hqmem (Or.inl rfl)
      have cqa : circularVal qa pb.numCharacters = qa :=
        circularVal_of_lt hqr.1 hqr.2.1
      have e2 : pb.encode qa = qb := by
        unfold Plugboard.encode
        dsimp only []
        rw [cqa, hfa]
        simp
      rw [e1, e2]
      exact hqb

/-- Witness for the amended C4 on the concrete plugboard at x = 2. -/
theorem c4_plugboard_involution_witness :
    (∀ q ∈ plugboardC.plugs, 0 ≤ q.1 ∧ q.1 < plugboardC.numCharacters ∧
      0 ≤ q.2 ∧ q.2 < plugboardC.numCharacters) ∧
    ((plugboardC.plugs.map (fun q => [q.1, q.2])).flatten).Nodup ∧
    (0 : Int) ≤ 2 ∧ (2 : Int) < plugboardC.numCharacters ∧
    plugboardC.encode (plugboardC.encode 2) = 2 :=
  ⟨by decide, by decide, by decide, by decide,
   c4_plugboard_involution_in_range plugboardC 2 (by decide) (by decide)
     (by decide) (by decide)⟩

theorem findDupInner_no_match (arr : List Int) (el : Int) :
    ∀ (others : List Nat) (dups : List (Nat × Int)),
    (∀ o ∈ others, arr.getD o 0 ≠ el) →
    findDupInner arr el dups others = dups := by
  intro others
  induction others with
  | nil =>
    intro dups _
    rfl
  | cons o rest ih =>
    intro dups h
    have ho : arr.getD o 0 ≠ el := h o (List.mem_cons_self o rest)
    have hrest : ∀ o2 ∈ rest, arr.getD o2 0 ≠ el :=
      fun o2 ho2 => h o2 (List.mem_cons_of_mem o ho2)
    unfold findDupInner
    by_cases hskip : (dups.find? (fun d => d.2 == arr.getD o 0)).isSome = true
    · rw [if_pos hskip]
      exact ih dups hrest
    · rw [if_neg hskip, if_neg (by simp only [beq_iff_eq]; exact ho)]
      exact ih dups hrest

theorem findDupInner_single (arr : List Int) (el : Int) (j : Nat)
    (hj : arr.getD j 0 = el) :
    ∀ (pre : List Nat), (∀ o ∈ pre, arr.getD o 0 ≠ el) →
    ∀ (post : List Nat), (∀ o ∈ post, arr.getD o 0 ≠ el) →
    findDupInner arr el [] (pre ++ j :: post) = [(j, el)] := by
  intro pre
  induction pre with
  | nil =>
    intro _ post hpost
    rw [List.nil_append]
    unfold findDupInner
    rw [if_neg (by simp), if_pos (by simp only [beq_iff_eq]; exact hj)]
    rw [List.nil_append]
    exact findDupInner_no_match arr el post [(j, el)] hpost
  | cons p pre2 ih =>
    intro hpre post hpost
    have hp : arr.getD p 0 ≠ el := hpre p (List.mem_cons_self p pre2)
    have hpre2 : ∀ o ∈ pre2, arr.getD o 0 ≠ el :=
      fun o ho => hpre o (List.mem_cons_of_mem p ho)
    rw [List.cons_append]
    unfold findDupInner
    rw [if_neg (by simp), if_neg (by simp only [beq_iff_eq]; exact hp)]
    exact ih hpre2 post hpost

theorem findDupOuter_no_match (arr : List Int) :
    ∀ (inds : List Nat) (dups : List (Nat × Int)),
    (∀ i ∈ inds, ∀ o ∈ List.range' (i + 1) (arr.length - (i + 1)),
      arr.getD o 0 ≠ arr.getD i 0) →
    findDupOuter arr dups inds = dups := by
  intro inds
  induction inds with
  | nil =>
    intro dups _
    rfl
  | cons i rest ih =>
    intro dups h
    unfold findDupOuter
    rw [findDupInner_no_match arr (arr.getD i 0) _ dups (h i (List.mem_cons_self i rest))]
    exact ih dups (fun i2 hi2 => h i2 (List.mem_cons_of_mem i hi2))

theorem findDupOuter_append (arr : List Int) :
    ∀ (l1 l2 : List Nat) (dups : List (Nat × Int)),
    findDupOuter arr dups (l1 ++ l2) = findDupOuter arr (findDupOuter arr dups l1) l2 := by
  intro l1
  induction l1 with
  | nil =>
    intro l2 dups
    rfl
  | cons i rest ih =>
    intro l2 dups
    rw [List.cons_append]
    exact ih l2 (findDupInner arr (arr.getD i 0) dups (List.range' (i + 1) (arr.length - (i + 1))))

theorem findOutOfRangesGo_empty (max : Int) :
    ∀ (l : List Int) (ind : Nat),
    (∀ v ∈ l, 0 ≤ v ∧ v < max) →
    findOutOfRangesGo max ind l = [] := by
  intro l
  induction l with
  | nil =>
    intro ind _
    rfl
  | cons v rest ih =>
    intro ind h
    have hv := h v (List.mem_cons_self v rest)
    unfold findOutOfRangesGo
    rw [if_neg (by omega), List.nil_append]
    exact ih (ind + 1) (fun v2 hv2 => h v2 (List.mem_cons_of_mem v hv2))

theorem getD_ne_of_nodup (arr : List Int) (hnd : arr.Nodup) (a b : Nat)
    (hab : a < b) (hb : b < arr.length) : arr.getD a 0 ≠ arr.getD b 0 := by
  intro heq
  rw [List.getD_eq_getElem arr 0 (Nat.lt_trans hab hb), List.getD_eq_getElem arr 0 hb] at heq
  have := (List.Nodup.getElem_inj_iff hnd).mp heq
  omega

theorem findDuplicates_of_nodup (arr : List Int) (hnd : arr.Nodup) :
    findDuplicates arr = [] := by
  unfold findDuplicates
  apply findDupOuter_no_match
  intro i hi o ho heq
  have hi2 : i < arr.length := List.mem_range.mp hi
  have ho2 := List.mem_range'_1.mp ho
  have hio : i < o := by omega
  have hon : o < arr.length := by omega
  exact getD_ne_of_nodup arr hnd i o hio hon heq.symm

theorem findDuplicates_single (arr : List Int) (i j : Nat)
    (hij : i < j) (hjlen : j < arr.length)
    (heq : arr.getD i 0 = arr.getD j 0)
    (huniq : ∀ b2 < arr.length, ∀ a2 < b2,
      arr.getD a2 0 = arr.getD b2 0 → a2 = i ∧ b2 = j) :
    findDuplicates arr = [(j, arr.getD j 0)] := by
  have hilen : i < arr.length := Nat.lt_trans hij hjlen
  have hsplit1 : List.range arr.length =
      List.range' 0 i ++ (i :: List.range' (i + 1) (arr.length - (i + 1))) := by
    rw [List.range_eq_range']
    have h2 : (i :: List.range' (i + 1) (arr.length - (i + 1))) =
        List.range' i (arr.length - i) := by
      have h3 : arr.length - i = (arr.length - (i + 1)) + 1 := by omega
      rw [h3, List.range'_succ]
    rw [h2]
    have h4 := List.range'_append 0 i (arr.length - i) 1
    simp only [Nat.one_mul, Nat.zero_add] at h4
    rw [h4]
    congr 1
    omega
  unfold findDuplicates
  rw [hsplit1, findDupOuter_append]
  have hfirst : findDupOuter arr [] (List.range' 0 i) = [] := by
    apply findDupOuter_no_match
    intro i2 hi2 o ho heq2
    have hi3 := List.mem_range'_1.mp hi2
    have ho3 := List.mem_range'_1.mp ho
    have := huniq o (by omega) i2 (by omega) heq2.symm
    omega
  rw [hfirst]
  unfold findDupOuter
  have hinner : findDupInner arr (arr.getD i 0) []
      (List.range' (i + 1) (arr.length - (i + 1))) = [(j, arr.getD i 0)] := by
    have hsplit2 : List.range' (i + 1) (arr.length - (i + 1)) =
        List.range' (i + 1) (j - (i + 1)) ++ (j :: List.range' (j + 1) (arr.length - (j + 1))) := by
      have h2 : (j :: List.range' (j + 1) (arr.length - (j + 1))) =
          List.range' j (arr.length - j) := by
        have h3 : arr.length - j = (arr.length - (j + 1)) + 1 := by omega
        rw [h3, List.range'_succ]
      rw [h2]
      have h4 := List.range'_append (i + 1) (j - (i + 1)) (arr.length - j) 1
      simp only [Nat.one_mul] at h4
      have h5 : i + 1 + (j - (i + 1)) = j := by omega
      rw [h5] at h4
      rw [h4]
      congr 1
      omega
    rw [hsplit2]
    apply findDupInner_single arr (arr.getD i 0) j heq.symm
    · intro o ho heq2
      have ho2 := List.mem_range'_1.mp ho
      have := huniq o (by omega) i (by omega) heq2.symm
      omega
    · intro o ho heq2
      have ho2 := List.mem_range'_1.mp ho
      have := huniq o (by omega) i (by omega) heq2.symm
      omega
  rw [hinner]
  rw [findDupOuter_no_match arr _ [(j, arr.getD i 0)] ?_, heq]
  intro i2 hi2 o ho heq2
  have hi3 := List.mem_range'_1.mp hi2
  have ho3 := List.mem_range'_1.mp ho
  have := huniq o (by omega) i2 (by omega) heq2.symm
  omega

/-- Claim C8. For every wiring array that is a true bijection of 0..N-1
(length N, all values in range, no duplicates), `Reflector.validate` reports no
defects; and for every array containing exactly one repeated value, at
positions i < j, the only duplicate reported by `findDuplicates` (the source of
every duplicate defect) is at position j — the first occurrence at position i
is never flagged. -/
theorem c8_bijection_valid_and_duplicate_position :
    (∀ (r : Reflector),
      (r.wiring.length : Int) = r.numCharacters →
      (∀ v ∈ r.wiring, 0 ≤ v ∧ v < r.numCharacters) →
      r.wiring.Nodup →
      r.validate = none) ∧
    (∀ (arr : List Int) (i j : Nat),
      i < j → j < arr.length →
      arr.getD i 0 = arr.getD j 0 →
      (∀ b2 < arr.length, ∀ a2 < b2, arr.getD a2 0 = arr.getD b2 0 → a2 = i ∧ b2 = j) →
      findDuplicates arr = [(j, arr.getD j 0)]) := by
  constructor
  · intro r hlen hrange hnd
    have h1 : findOutOfRanges r.wiring r.numCharacters = [] :=
      findOutOfRangesGo_empty r.numCharacters r.wiring 0 hrange
    have h2 : findDuplicates r.wiring = [] := findDuplicates_of_nodup r.wiring hnd
    unfold Reflector.validate
    rw [h1, h2]
    rfl
  · intro arr i j hij hjlen heq huniq
    exact findDuplicates_single arr i j hij hjlen heq huniq

/-- Witness for C8: the valid 2-character reflector validates to no defects,
and the array [0, 1, 0] (single repeat at positions 0 and 2) yields exactly
the duplicate record at position 2. -/
theorem c8_bijection_valid_and_duplicate_position_witness :
    reflW.validate = none ∧
    findDuplicates [0, 1, 0] = [(2, ([0, 1, 0] : List Int).getD 2 0)] :=
  ⟨c8_bijection_valid_and_duplicate_position.1 reflW (by decide) (by decide) (by decide),
   c8_bijection_valid_and_duplicate_position.2 [0, 1, 0] 0 2 (by decide) (by decide)
     (by decide) (by decide)⟩

/-- Witness for C10 on the concrete assembled machine. -/
theorem c10_processCharacter_empty_throws_witness :
    machineW.reflector = some reflW ∧
    machineW.processCharacter [] 'X' = .error charAccessTypeErrorMsg :=
  ⟨rfl, c10_processCharacter_empty_throws machineW reflW 'X' rfl⟩

end Enigma
